import Mathlib

/-!
Verification development for the Git-Template-CLI tool
(`src/git_template_cli/cli.py`).

The embedding models Python strings as lists of character code points
(`Str := List Nat`).  The regular-expression substitutions, Python's
`str.replace`, `str.capitalize`, `str.lower`, `re.split`, the placeholder
table, the rename/rewrite walk of `create`, and the `list` command are
translated directly from the source.  Python's `str.lower` is
Unicode-aware; the model implements the ASCII range, which covers every
character class the source's regexes (`[A-Z]`, `[a-z]`, `[a-z0-9]`)
mention and every placeholder token the tool defines.

Recursions that consume more than one element per step are implemented
with a fuel parameter equal to the input length (so that every function
is structurally recursive and kernel-reducible); fuel-irrelevance lemmas
recover the natural unfolding equations.
-/

/-- A Python string, as its list of character code points. -/
abbrev Str := List Nat

/-- Code points of a Lean string literal. -/
def ofString (s : String) : Str := s.toList.map Char.toNat

/-- The regex class `[A-Z]`. -/
def isUpper (c : Nat) : Bool := 65 ≤ c && c ≤ 90

/-- The regex class `[a-z]`. -/
def isLower (c : Nat) : Bool := 97 ≤ c && c ≤ 122

/-- The regex class `[0-9]`. -/
def isDigit (c : Nat) : Bool := 48 ≤ c && c ≤ 57

/-- ASCII lowercasing of one character (Python `str.lower`, ASCII range). -/
def toLowerChar (c : Nat) : Nat := if isUpper c then c + 32 else c

/-- ASCII uppercasing of one character (first character of Python
`str.capitalize`, ASCII range). -/
def toUpperChar (c : Nat) : Nat := if isLower c then c - 32 else c

/-! ### `kebab_case` (cli.py lines 22-25)

```python
def kebab_case(name):
    s1 = re.sub('(.)([A-Z][a-z]+)', r'\1-\2', name)
    return re.sub('([a-z0-9])([A-Z])', r'\1-\2', s1).lower()
```

`sub1Go` models the first `re.sub`: scanning left to right, a match is
any character other than a newline (regex `.` does not match `\n`),
followed by an uppercase letter, followed by a greedy nonempty run of
lowercase letters; matches do not overlap, so scanning resumes after the
consumed run.  `sub2` models the second `re.sub`.  Fuel bounds the scan
length. -/

def sub1Go : Nat → Str → Str
  | 0, s => s
  | _ + 1, [] => []
  | _ + 1, [c] => [c]
  | _ + 1, [c, u] => [c, u]
  | fuel + 1, c :: u :: l :: rest =>
    if (c != 10) && isUpper u && isLower l then
      c :: 45 :: u :: ((l :: rest).takeWhile isLower
        ++ sub1Go fuel ((l :: rest).dropWhile isLower))
    else
      c :: sub1Go fuel (u :: l :: rest)

/-- First substitution pass of `kebab_case`. -/
def sub1 (s : Str) : Str := sub1Go s.length s

/-- Second substitution pass of `kebab_case`:
`re.sub('([a-z0-9])([A-Z])', r'\1-\2', _)`; a match consumes both
characters. -/
def sub2 : Str → Str
  | [] => []
  | [c] => [c]
  | c :: u :: rest =>
    if (isLower c || isDigit c) && isUpper u then
      c :: 45 :: u :: sub2 rest
    else
      c :: sub2 (u :: rest)

/-- `kebab_case` from cli.py: the two regex passes, then `.lower()`. -/
def kebab_case (s : Str) : Str := (sub2 (sub1 s)).map toLowerChar

/-! ### `pascal_case` (cli.py lines 18-20)

```python
def pascal_case(name):
    return "".join(word.capitalize() for word in re.split(r'[-_]', name))
```
-/

/-- `re.split(r'[-_]', _)`: split on every `-` (45) or `_` (95), keeping
empty segments. -/
def splitSep : Str → List Str
  | [] => [[]]
  | c :: rest =>
    if c = 45 || c = 95 then [] :: splitSep rest
    else
      match splitSep rest with
      | [] => [[c]]
      | w :: ws => (c :: w) :: ws

/-- Python `str.capitalize`: first character uppercased, the rest
lowercased. -/
def capitalize : Str → Str
  | [] => []
  | c :: rest => toUpperChar c :: rest.map toLowerChar

/-- `pascal_case` from cli.py. -/
def pascal_case (s : Str) : Str := ((splitSep s).map capitalize).flatten

/-- The inline snake derivation used by `create`
(`x.lower().replace('-', '_')`). -/
def lower_snake (s : Str) : Str :=
  (s.map toLowerChar).map (fun c => if c = 45 then 95 else c)

/-! ### Python `str.replace` and the `in` operator -/

/-- Python `str.replace(old, new)` for a nonempty pattern: replace
non-overlapping occurrences left to right.  (Every pattern the tool
replaces is a nonempty literal.)  Fuel bounds the scan length. -/
def replaceAllGo (pat repl : Str) : Nat → Str → Str
  | 0, s => s
  | _ + 1, [] => []
  | fuel + 1, c :: rest =>
    if pat.isPrefixOf (c :: rest) && !pat.isEmpty then
      repl ++ replaceAllGo pat repl fuel (List.drop (pat.length - 1) rest)
    else
      c :: replaceAllGo pat repl fuel rest

/-- Python `content.replace(pat, repl)`. -/
def replaceAll (pat repl s : Str) : Str := replaceAllGo pat repl s.length s

/-- Python's substring test `pat in s`. -/
def containsSub (pat : Str) : Str → Bool
  | [] => pat.isEmpty
  | c :: rest => pat.isPrefixOf (c :: rest) || containsSub pat rest

/-! ### Placeholder table (cli.py lines 187-203)

The `placeholders` dict of `create`, keyed by template name; Python dicts
preserve declaration order, so each template's entries are an ordered
list.  `str(datetime.now().year)` is passed in as the `year` parameter
(the resolver is pure given the current year). -/

/-- The placeholder substitutions `create` resolves for a template name
and new item name, in declaration order (`placeholders.get(template_name,
{})`). -/
def placeholders (template_name new_item_name year : Str) : List (Str × Str) :=
  if template_name = ofString "react-component" then
    [(ofString "COMPONENT_NAME", pascal_case new_item_name),
     (ofString "component_name_kebab", kebab_case new_item_name)]
  else if template_name = ofString "python-service" then
    [(ofString "SERVICE_NAME", new_item_name),
     (ofString "service_name_snake", lower_snake new_item_name)]
  else if template_name = ofString "basic" then
    [(ofString "PROJECT_NAME", new_item_name),
     (ofString "LICENSE_TYPE", ofString "MIT License"),
     (ofString "YEAR", year)]
  else []

/-! ### The rewrite walk of `create` (cli.py lines 205-232) -/

/-- The rename loop (lines 210-214).  For each placeholder in order, if
it occurs in `filename` the file on disk is renamed to
`filename.replace(original_ph, replacement_val)`.  The loop variable
`filename` is never reassigned, so each rename is computed from the
original name and the last matching placeholder determines the final
on-disk name (tracked by `filepath` in the source). -/
def renameFile (subs : List (Str × Str)) (filename : Str) : Str :=
  subs.foldl
    (fun current pv =>
      if containsSub pv.1 filename then replaceAll pv.1 pv.2 filename
      else current)
    filename

/-- The content loop (lines 222-225): for each placeholder in order,
replace the exact token, then its `kebab_case` form, then its
`lower().replace('-','_')` form. -/
def rewriteContent (subs : List (Str × Str)) (content : Str) : Str :=
  subs.foldl
    (fun c pv =>
      replaceAll (lower_snake pv.1) (lower_snake pv.2)
        (replaceAll (kebab_case pv.1) (kebab_case pv.2)
          (replaceAll pv.1 pv.2 c)))
    content

/-- A file's stored bytes: either text that decodes under UTF-8, or
non-decodable binary bytes (reading them with `encoding='utf-8'` raises
`UnicodeDecodeError`). -/
inductive FileData where
  | text (s : Str)
  | binary (bs : List Nat)
  deriving DecidableEq

/-- A file in a template / destination tree.  `renameFails` injects an
OS error raised by `os.rename` for this file; `writeFails` injects an
error raised while rewriting its content (e.g. the write-back fails),
the case caught by the generic `except Exception` handler. -/
structure TFile where
  name : Str
  data : FileData
  renameFails : Bool
  writeFails : Bool
  deriving DecidableEq

/-- Diagnostics the walk can emit per file. -/
inductive Notice where
  | skippedBinary (filepath : Str)
  | errorProcessing (filepath : Str)
  deriving DecidableEq

/-- A node of a template or destination tree. -/
inductive Entry where
  | file (f : TFile)
  | dir (name : Str) (children : List Entry)

/-- Processing of one visited file (lines 209-232): the rename loop runs
first (an `os.rename` failure there is raised outside any handler and
aborts the whole command, carried as `.error`); then the content is read
as UTF-8 — binary data yields the `Skipping binary file` notice and the
bytes are left untouched; a failing write yields the
`Error processing file` notice and the walk continues. -/
def processFile (subs : List (Str × Str)) (f : TFile) :
    Except Str (TFile × List Notice) :=
  if (subs.any fun pv => containsSub pv.1 f.name) && f.renameFails then
    .error f.name
  else
    let newName := renameFile subs f.name
    match f.data with
    | .binary bs =>
        .ok (⟨newName, .binary bs, f.renameFails, f.writeFails⟩,
          [.skippedBinary newName])
    | .text s =>
        if f.writeFails then
          .ok (⟨newName, .text s, f.renameFails, f.writeFails⟩,
            [.errorProcessing newName])
        else
          .ok (⟨newName, .text (rewriteContent subs s), f.renameFails,
            f.writeFails⟩, [])

mutual
/-- The `os.walk` rewrite pass over one tree node.  Directories are
only descended into — `for root, _, files in os.walk(...)` never renames
a directory. -/
def rewriteEntry (subs : List (Str × Str)) :
    Entry → Except Str (Entry × List Notice)
  | .file f =>
      match processFile subs f with
      | .error n => .error n
      | .ok (f2, ns) => .ok (.file f2, ns)
  | .dir name cs =>
      match rewriteEntries subs cs with
      | .error n => .error n
      | .ok (cs2, ns) => .ok (.dir name cs2, ns)

/-- The rewrite pass over a list of sibling nodes, in order; an uncaught
exception aborts the remaining walk. -/
def rewriteEntries (subs : List (Str × Str)) :
    List Entry → Except Str (List Entry × List Notice)
  | [] => .ok ([], [])
  | e :: es =>
      match rewriteEntry subs e with
      | .error n => .error n
      | .ok (e2, ns) =>
          match rewriteEntries subs es with
          | .error n => .error n
          | .ok (es2, ns2) => .ok (e2 :: es2, ns ++ ns2)
end

mutual
/-- All files contained in a tree node. -/
def filesOfE : Entry → List TFile
  | .file f => [f]
  | .dir _ cs => filesOfL cs

/-- All files contained in a forest. -/
def filesOfL : List Entry → List TFile
  | [] => []
  | e :: es => filesOfE e ++ filesOfL es
end

mutual
/-- All directory names occurring in a tree node, in traversal order. -/
def dirNamesE : Entry → List Str
  | .file _ => []
  | .dir n cs => n :: dirNamesL cs

/-- All directory names occurring in a forest. -/
def dirNamesL : List Entry → List Str
  | [] => []
  | e :: es => dirNamesE e ++ dirNamesL es
end

/-! ### The `create` command (cli.py lines 149-235) -/

/-- Outcome of one `create` invocation.  `crashed` is an uncaught
exception escaping the rewrite walk (a failed `os.rename`), which kills
the process with a traceback. -/
inductive CreateResult where
  | templateNotFound
  | destinationExists
  | copyFailure
  | crashed (filename : Str)
  | success (notices : List Notice)
  deriving DecidableEq

/-- Exit code of the process for each outcome: `sys.exit(1)` on the
fatal errors, 1 for an uncaught exception, 0 on the success path. -/
def exitCode : CreateResult → Nat
  | .success _ => 0
  | _ => 1

/-- The filesystem state at the destination path `<path>/<new_item_name>`:
`none` when nothing exists there. -/
structure World where
  dest : Option (List Entry)

/-- Resolving `pkg_resources.files(...) / template_name` against the
catalog of template trees. -/
def lookupTemplate (name : Str) :
    List (Str × List Entry) → Option (List Entry)
  | [] => none
  | (n, t) :: rest => if n = name then some t else lookupTemplate name rest

/-- The `create` command (lines 149-235), up to the git side effects.
Order of stages follows the source: template resolution (exit 1 when the
template is not a directory resource), the destination-existence check
(exit 1, nothing mutated), `copy_resource_dir` (byte-exact tree copy; an
I/O error exits 1 and may leave a partial destination, abstracted here
as an unspecified partial tree), then the rename/rewrite walk.  A
rename failure propagates out of the walk uncaught. -/
def create (catalog : List (Str × List Entry)) (w : World)
    (template_name new_item_name year : Str) (copyFails : Bool) :
    World × CreateResult :=
  match lookupTemplate template_name catalog with
  | none => (w, .templateNotFound)
  | some tmpl =>
    if w.dest.isSome then (w, .destinationExists)
    else if copyFails then (⟨some []⟩, .copyFailure)
    else
      let subs := placeholders template_name new_item_name year
      match rewriteEntries subs tmpl with
      | .error n => (⟨some tmpl⟩, .crashed n)
      | .ok (es, ns) => (⟨some es⟩, .success ns)

/-! ### The template catalog and the `list` command
(cli.py lines 61-90 and 264-267) -/

/-- Python string comparison (`<` on code points, lexicographic with the
prefix rule), as used by `sorted`. -/
def strLt : Str → Str → Bool
  | [], [] => false
  | [], _ :: _ => true
  | _ :: _, [] => false
  | a :: as, b :: bs =>
    if a < b then true else if a = b then strLt as bs else false

/-- The non-strict order underlying `sorted`. -/
def strLe (a b : Str) : Prop := strLt b a = false

instance : DecidableRel strLe := fun a b => by
  unfold strLe; infer_instance

/-- `sorted(templates)`: the unique `strLe`-sorted permutation, modelled
by insertion sort. -/
def sortStrs (l : List Str) : List Str := List.insertionSort strLe l

/-- The catalog root as `list_templates` sees it: either unreachable
(the base directory does not exist, or `iterdir` raises — both print an
error and return `[]`), or readable with a list of child directory
names. -/
inductive Catalog where
  | unavailable
  | available (dirs : List Str)

/-- The distinct output lines `list_templates` can print. -/
inductive Line where
  | catalogError
  | availableHeader
  | templateName (t : Str)
  | noTemplates
  deriving DecidableEq

/-- `list_templates` (lines 61-90): on an unreachable catalog, print the
error and return `[]`; otherwise print the sorted names under a header
(or the `No templates found` notice) and return the unsorted list. -/
def list_templates : Catalog → List Line × List Str
  | .unavailable => ([.catalogError], [])
  | .available ds =>
    if ds.isEmpty then ([.noTemplates], ds)
    else (.availableHeader :: (sortStrs ds).map .templateName, ds)

/-- The `list` command (lines 264-267): it calls `list_templates` and
returns normally, so the process always exits 0. -/
def listCommand (c : Catalog) : List Line × Nat :=
  ((list_templates c).1, 0)

/-! ### Definitions written from the spec's words (refinement twins)

These follow the specification text, to be compared with the
source-derived definitions above. -/

/-- Whether a string begins with a lowercase letter (the start of a
"run beginning with an uppercase letter then a lowercase letter" is an
uppercase letter whose successor is lowercase). -/
def headIsLower : Str → Bool
  | [] => false
  | c :: _ => isLower c

/-- Spec wording for pass (a) of `toKebab`: insert a `-` between ANY
character and a following run beginning with an uppercase letter then a
lowercase letter. -/
def specPassA : Str → Str
  | [] => []
  | [c] => [c]
  | c :: d :: rest =>
    if isUpper d && headIsLower rest then c :: 45 :: specPassA (d :: rest)
    else c :: specPassA (d :: rest)

/-- Pass (a) amended to the code's behaviour: regex `.` does not match a
newline, so the character before the run must not be `\n` (10). -/
def specPassANoNl : Str → Str
  | [] => []
  | [c] => [c]
  | c :: d :: rest =>
    if (c != 10) && isUpper d && headIsLower rest then
      c :: 45 :: specPassANoNl (d :: rest)
    else c :: specPassANoNl (d :: rest)

/-- Spec wording for pass (b) of `toKebab`: insert a `-` between any
lowercase-or-digit character and a following uppercase letter. -/
def specPassB : Str → Str
  | [] => []
  | [c] => [c]
  | c :: d :: rest =>
    if (isLower c || isDigit c) && isUpper d then c :: 45 :: specPassB (d :: rest)
    else c :: specPassB (d :: rest)

/-- `toKebab` exactly as the spec describes it (claim wording). -/
def specKebab (s : Str) : Str := (specPassB (specPassA s)).map toLowerChar

/-- `toKebab` as the spec describes it, amended with the newline guard. -/
def specKebabNoNl (s : Str) : Str :=
  (specPassB (specPassANoNl s)).map toLowerChar

/-- Applying an ordered list of substitution rules to a string, first
rule first (spec wording for the full expanded rule sequence). -/
def applyRules (rules : List (Str × Str)) (s : Str) : Str :=
  rules.foldl (fun c r => replaceAll r.1 r.2 c) s

/-- Spec wording for the expansion of one placeholder entry: exact
token, then kebab-case of the token, then lower-snake of the token. -/
def expandEntry (pv : Str × Str) : List (Str × Str) :=
  [(pv.1, pv.2),
   (kebab_case pv.1, kebab_case pv.2),
   (lower_snake pv.1, lower_snake pv.2)]

/-- The full expanded rule sequence of a placeholder spec, in
declaration order. -/
def expandAll (subs : List (Str × Str)) : List (Str × Str) :=
  (subs.map expandEntry).flatten

/-- The last placeholder entry whose token occurs in `fn`, if any (used
to characterise the rename loop's last-match-wins behaviour). -/
def lastMatch (fn : Str) : List (Str × Str) → Option (Str × Str)
  | [] => none
  | pv :: subs =>
    match lastMatch fn subs with
    | some q => some q
    | none => if containsSub pv.1 fn then some pv else none

/-! ### Concrete inputs used by counterexamples and witnesses -/

/-- The placeholder substitutions for template `react-component` and
item name `MyButton` (year irrelevant for this template). -/
def reactSubs : List (Str × Str) :=
  placeholders (ofString "react-component") (ofString "MyButton") (ofString "2025")

/-- A catalog holding a `react-component` template with one file
`COMPONENT_NAME.tsx` mentioning both placeholder tokens. -/
def reactCatalog : List (Str × List Entry) :=
  [(ofString "react-component",
    [Entry.file ⟨ofString "COMPONENT_NAME.tsx",
      .text (ofString "COMPONENT_NAME and component_name_kebab"),
      false, false⟩])]

/-- The same template, but `os.rename` fails for its first file; a
second file follows it in the walk. -/
def renameFailCatalog : List (Str × List Entry) :=
  [(ofString "react-component",
    [Entry.file ⟨ofString "COMPONENT_NAME.tsx",
      .text (ofString "COMPONENT_NAME"), true, false⟩,
     Entry.file ⟨ofString "other.txt", .text (ofString "hello"), false, false⟩])]

/-- A tree whose directory name contains a placeholder token. -/
def placeholderDirTree : List Entry :=
  [Entry.dir (ofString "COMPONENT_NAME")
    [Entry.file ⟨ofString "COMPONENT_NAME.tsx",
      .text (ofString "COMPONENT_NAME"), false, false⟩]]

/-- The rewrite of `placeholderDirTree` under `reactSubs`: the file is
renamed and rewritten, the directory keeps its name. -/
def placeholderDirTreeResult : List Entry :=
  [Entry.dir (ofString "COMPONENT_NAME")
    [Entry.file ⟨ofString "Mybutton.tsx",
      .text (ofString "Mybutton"), false, false⟩]]

/-! ### Order facts for `sorted` -/

instance : IsTotal Str strLe := by
  constructor
  have asym : ∀ a b : Str, strLt a b = true → strLt b a = false := by
    intro a
    induction a with
    | nil => intro b h; cases b with
      | nil => simp [strLt] at h
      | cons c cs => simp [strLt]
    | cons x xs ih =>
      intro b h
      cases b with
      | nil => simp [strLt] at h
      | cons y ys =>
        simp only [strLt] at h ⊢
        split at h
        · split
          · omega
          · split
            · omega
            · rfl
        · split at h
          · split
            · omega
            · split
              · exact ih ys h
              · rfl
          · exact absurd h (by simp)
  intro a b
  by_cases h : strLt a b = true
  · exact Or.inl (asym a b h)
  · exact Or.inr (by simpa using h)

instance : IsTrans Str strLe := by
  constructor
  have key : ∀ (a b c : Str), strLt b a = false → strLt c b = false →
      strLt c a = false := by
    intro a
    induction a with
    | nil =>
      intro b c h1 h2
      cases c with
      | nil => rfl
      | cons z zs => rfl
    | cons x xs ih =>
      intro b c h1 h2
      cases b with
      | nil => simp [strLt] at h1
      | cons y ys =>
        cases c with
        | nil => simp [strLt] at h2
        | cons z zs =>
          simp only [strLt] at h1 h2 ⊢
          split at h1
          · simp at h1
          · split at h2
            · simp at h2
            · split at h1
              · split at h2
                · subst_vars
                  split
                  · omega
                  · split
                    · exact ih ys zs h1 h2
                    · rfl
                · split
                  · omega
                  · split
                    · omega
                    · rfl
              · split
                · omega
                · split
                  · omega
                  · rfl
  exact fun a b c h1 h2 => key a b c h1 h2

instance : IsAntisymm Str strLe := by
  constructor
  have key : ∀ (a b : Str), strLt b a = false → strLt a b = false → a = b := by
    intro a
    induction a with
    | nil =>
      intro b h1 h2
      cases b with
      | nil => rfl
      | cons y ys => simp [strLt] at h2
    | cons x xs ih =>
      intro b h1 h2
      cases b with
      | nil => simp [strLt] at h1
      | cons y ys =>
        simp only [strLt] at h1 h2
        split at h1
        · simp at h1
        · split at h2
          · simp at h2
          · split at h1
            · split at h2
              · subst_vars
                rw [ih ys h1 h2]
              · omega
            · split at h2
              · omega
              · omega
  exact fun a b h1 h2 => key a b h1 h2

/-- A `react-component` template whose first file's content write fails
(generic per-file processing error), followed by a healthy file. -/
def writeFailCatalog : List (Str × List Entry) :=
  [(ofString "react-component",
    [Entry.file ⟨ofString "COMPONENT_NAME.tsx",
      .text (ofString "COMPONENT_NAME"), false, true⟩,
     Entry.file ⟨ofString "other.txt", .text (ofString "hi"), false, false⟩])]

/-! ## Basic lemmas -/

theorem dropWhile_length_le (p : Nat → Bool) :
    ∀ l : List Nat, (l.dropWhile p).length ≤ l.length := by
  intro l
  induction l with
  | nil => simp [List.dropWhile]
  | cons c cs ih =>
    simp only [List.dropWhile]
    split
    · exact Nat.le_succ_of_le ih
    · simp

theorem mem_takeWhile_lower {c : Nat} {l : Str} :
    c ∈ l.takeWhile isLower → isLower c = true := by
  induction l with
  | nil => simp [List.takeWhile]
  | cons d ds ih =>
    simp only [List.takeWhile]
    split
    · rename_i hd
      intro hmem
      rcases List.mem_cons.mp hmem with h | h
      · subst h; exact hd
      · exact ih h
    · simp

theorem headIsLower_dropWhile (l : Str) :
    headIsLower (l.dropWhile isLower) = false := by
  induction l with
  | nil => rfl
  | cons c cs ih =>
    simp only [List.dropWhile]
    split
    · exact ih
    · rename_i h
      simp only [headIsLower]
      exact h

theorem sub1Go_nil (fuel : Nat) : sub1Go fuel [] = [] := by
  cases fuel <;> rfl

theorem sub1Go_congr : ∀ fuel1 fuel2 (s : Str), s.length ≤ fuel1 →
    s.length ≤ fuel2 → sub1Go fuel1 s = sub1Go fuel2 s := by
  intro fuel1
  induction fuel1 with
  | zero =>
    intro fuel2 s h1 _
    have hs : s = [] := List.length_eq_zero.mp (Nat.le_zero.mp h1)
    subst hs
    simp [sub1Go_nil]
  | succ a ih =>
    intro fuel2 s h1 h2
    cases s with
    | nil => simp [sub1Go_nil]
    | cons c s1 =>
      cases fuel2 with
      | zero => simp at h2
      | succ b =>
        cases s1 with
        | nil => rfl
        | cons u s2 =>
          cases s2 with
          | nil => rfl
          | cons l rest =>
            simp only [List.length_cons] at h1 h2
            have hd := dropWhile_length_le isLower (l :: rest)
            simp only [List.length_cons] at hd
            simp only [sub1Go]
            split
            · rw [ih b _ (by omega) (by omega)]
            · rw [ih b _ (by simp; omega) (by simp; omega)]

theorem sub1_eq_go (fuel : Nat) (s : Str) (h : s.length ≤ fuel) :
    sub1Go fuel s = sub1 s :=
  sub1Go_congr fuel s.length s h (Nat.le_refl _)

theorem sub1_cons3 (c u l : Nat) (rest : Str) :
    sub1 (c :: u :: l :: rest) =
      if (c != 10) && isUpper u && isLower l then
        c :: 45 :: u :: ((l :: rest).takeWhile isLower
          ++ sub1 ((l :: rest).dropWhile isLower))
      else
        c :: sub1 (u :: l :: rest) := by
  have hd := dropWhile_length_le isLower (l :: rest)
  simp only [List.length_cons] at hd
  show sub1Go (c :: u :: l :: rest).length _ = _
  simp only [List.length_cons]
  rw [show rest.length + 1 + 1 + 1 = (rest.length + 1 + 1) + 1 from rfl]
  simp only [sub1Go]
  split
  · rw [sub1_eq_go _ _ (by omega)]
  · rw [sub1_eq_go _ _ (by simp)]

theorem sub1_cons_head (c : Nat) (s : Str) : ∃ t, sub1 (c :: s) = c :: t := by
  cases s with
  | nil => exact ⟨[], rfl⟩
  | cons u s1 =>
    cases s1 with
    | nil => exact ⟨[u], rfl⟩
    | cons l rest =>
      rw [sub1_cons3]
      split
      · exact ⟨_, rfl⟩
      · exact ⟨_, rfl⟩

theorem isUpper_toLowerChar (c : Nat) : isUpper (toLowerChar c) = false := by
  simp only [toLowerChar, isUpper]
  split <;> rename_i h <;>
    simp only [isUpper, Bool.and_eq_true, decide_eq_true_eq,
      Bool.and_eq_false_iff, decide_eq_false_iff_not] at h ⊢ <;>
    omega

theorem toLowerChar_of_not_upper {c : Nat} (h : isUpper c = false) :
    toLowerChar c = c := by
  simp [toLowerChar, h]

theorem isLower_not_upper {c : Nat} (h : isLower c = true) :
    isUpper c = false := by
  simp only [isLower, Bool.and_eq_true, decide_eq_true_eq] at h
  simp only [isUpper, Bool.and_eq_false_iff, decide_eq_false_iff_not]
  omega

theorem isUpper_not_lowerdigit {c : Nat} (h : isUpper c = true) :
    (isLower c || isDigit c) = false := by
  simp only [isUpper, Bool.and_eq_true, decide_eq_true_eq] at h
  simp only [isLower, isDigit, Bool.or_eq_false_iff, Bool.and_eq_false_iff,
    decide_eq_false_iff_not]
  omega

theorem isLower_bne10 {c : Nat} (h : isLower c = true) : (c != 10) = true := by
  simp only [isLower, Bool.and_eq_true, decide_eq_true_eq] at h
  simp only [bne_iff_ne, ne_eq]
  omega

/-! ## Claim C1 -/

/-- Claim C1, counterexample.  Creating `MyButton` from
`react-component` renames `COMPONENT_NAME.tsx` to `Mybutton.tsx` — not
`MyButton.tsx` — because `pascal_case` uses Python `str.capitalize`,
which lowercases every character after the first; and content
`component_name_kebab` becomes `mybutton_kebab` — not `my-button` —
because the first entry's derived kebab/snake rule `component_name ->
mybutton` rewrites the second entry's token before the second entry is
processed. -/
theorem c1_counterexample :
    create reactCatalog ⟨none⟩ (ofString "react-component")
        (ofString "MyButton") (ofString "2025") false =
      (⟨some [Entry.file ⟨ofString "Mybutton.tsx",
        .text (ofString "Mybutton and mybutton_kebab"), false, false⟩]⟩,
       CreateResult.success []) ∧
    ofString "Mybutton.tsx" ≠ ofString "MyButton.tsx" ∧
    ofString "Mybutton and mybutton_kebab" ≠
      ofString "MyButton and my-button" :=
  ⟨rfl, by decide, by decide⟩

/-- Claim C1, amended.  For template `react-component` and item name
`MyButton`: a file named `COMPONENT_NAME.tsx` ends up named
`Mybutton.tsx`, occurrences of `COMPONENT_NAME` in decodable content
are replaced by `Mybutton`, and occurrences of `component_name_kebab`
in decodable content are replaced by `mybutton_kebab`. -/
theorem c1_amended :
    renameFile reactSubs (ofString "COMPONENT_NAME.tsx") =
      ofString "Mybutton.tsx" ∧
    rewriteContent reactSubs (ofString "a COMPONENT_NAME b") =
      ofString "a Mybutton b" ∧
    rewriteContent reactSubs (ofString "a component_name_kebab b") =
      ofString "a mybutton_kebab b" :=
  ⟨rfl, rfl, rfl⟩

/-! ## Claim C4 -/

/-- Claim C4, counterexample.  An invocation whose destination already
exists but whose template name is not in the catalog fails with
`TemplateNotFound`, not `DestinationExists`: the template check runs
first. -/
theorem c4_counterexample :
    create [] ⟨some []⟩ (ofString "ghost") (ofString "X")
        (ofString "2025") false = (⟨some []⟩, CreateResult.templateNotFound) ∧
    CreateResult.templateNotFound ≠ CreateResult.destinationExists :=
  ⟨rfl, by decide⟩

/-- Claim C4, amended.  For every invocation whose template exists in
the catalog and whose destination path already exists, `create` fails
with `DestinationExists` and exit code 1, returning the world exactly as
it was (no mutation, no partial state); with an unknown template it
fails earlier with `TemplateNotFound`, likewise leaving the world
unchanged. -/
theorem c4_amended :
    ∀ (catalog : List (Str × List Entry)) (w : World) (tn nin y : Str)
      (cf : Bool),
    (∀ tmpl d, lookupTemplate tn catalog = some tmpl → w.dest = some d →
      create catalog w tn nin y cf = (w, CreateResult.destinationExists) ∧
      exitCode CreateResult.destinationExists = 1) ∧
    (lookupTemplate tn catalog = none →
      create catalog w tn nin y cf = (w, CreateResult.templateNotFound)) := by
  intro catalog w tn nin y cf
  constructor
  · intro tmpl d hlook hdest
    refine ⟨?_, rfl⟩
    simp only [create, hlook, hdest, Option.isSome_some, if_true]
  · intro hlook
    simp only [create, hlook]

/-- Claim C4, witness for the amended theorem at a concrete catalog and
an existing destination. -/
theorem c4_witness :
    create [(ofString "basic", [])] ⟨some []⟩ (ofString "basic")
        (ofString "X") (ofString "2025") false =
      (⟨some []⟩, CreateResult.destinationExists) :=
  ((c4_amended [(ofString "basic", [])] ⟨some []⟩ (ofString "basic")
    (ofString "X") (ofString "2025") false).1 [] [] rfl rfl).1

/-! ## Claim C5 -/

/-- Claim C5.  A file whose bytes do not decode is left byte-for-byte as
the copy stage wrote it: the rewrite pass renames it if its name matches
a placeholder, never rewrites its bytes (they never reach the
replacement code — reading raises `UnicodeDecodeError` first), emits the
`Skipping binary file` notice, and the walk does not fail. -/
theorem c5_binary_untouched :
    ∀ (subs : List (Str × Str)) (name : Str) (bs : List Nat) (wf : Bool),
    processFile subs ⟨name, .binary bs, false, wf⟩ =
      .ok (⟨renameFile subs name, .binary bs, false, wf⟩,
        [Notice.skippedBinary (renameFile subs name)]) := by
  intro subs name bs wf
  simp [processFile]

/-! ## Claim C6 -/

/-- Claim C6, counterexample.  When the catalog root cannot be read,
`list_templates` prints the error but returns the empty list — the same
value an empty catalog returns — and the `list` command exits 0, not
non-zero: the condition is not fatal. -/
theorem c6_counterexample :
    (listCommand Catalog.unavailable).2 = 0 ∧
    list_templates Catalog.unavailable = ([Line.catalogError], []) ∧
    (list_templates Catalog.unavailable).2 =
      (list_templates (Catalog.available [])).2 :=
  ⟨rfl, rfl, rfl⟩

/-- Claim C6, amended.  An unreadable catalog root is reported with a
distinct error message that an available catalog never emits — so the
condition is distinguishable in the diagnostic output from an empty
catalog — but it is non-fatal: `list_templates` returns the same empty
list as an empty catalog and the `list` command exits 0. -/
theorem c6_amended :
    list_templates Catalog.unavailable = ([Line.catalogError], []) ∧
    (∀ ds, Line.catalogError ∉ (list_templates (Catalog.available ds)).1) ∧
    (listCommand Catalog.unavailable).2 = 0 ∧
    (list_templates Catalog.unavailable).2 =
      (list_templates (Catalog.available [])).2 := by
  refine ⟨rfl, ?_, rfl, rfl⟩
  intro ds
  simp only [list_templates]
  split
  · simp
  · simp

/-! ## Claim C2 -/

theorem rewriteContent_eq_applyRules :
    ∀ (subs : List (Str × Str)) (s : Str),
    rewriteContent subs s = applyRules (expandAll subs) s := by
  intro subs
  induction subs with
  | nil => intro s; rfl
  | cons pv subs ih =>
    intro s
    have hexp : expandAll (pv :: subs) = expandEntry pv ++ expandAll subs := by
      simp [expandAll]
    simp only [rewriteContent, List.foldl_cons]
    rw [hexp]
    simp only [applyRules, List.foldl_append]
    exact ih _

theorem renameFile_lastMatch :
    ∀ (subs : List (Str × Str)) (fn acc : Str),
    List.foldl
      (fun current pv =>
        if containsSub pv.1 fn then replaceAll pv.1 pv.2 fn else current)
      acc subs =
      (match lastMatch fn subs with
       | some pv => replaceAll pv.1 pv.2 fn
       | none => acc) := by
  intro subs
  induction subs with
  | nil => intro fn acc; rfl
  | cons pv subs ih =>
    intro fn acc
    simp only [List.foldl_cons, lastMatch]
    rw [ih]
    cases h : lastMatch fn subs with
    | some q => rfl
    | none =>
      by_cases hc : containsSub pv.1 fn = true
      · simp [hc]
      · simp only [Bool.not_eq_true] at hc
        simp [hc]

/-- Claim C2, counterexample.  The full expanded rule sequence is not
applied to file names: a file named `component_name.css` would become
`mybutton.css` under the expanded rules (the kebab form of
`COMPONENT_NAME` maps to the kebab form of its replacement), but the
rename pass, which uses only the exact tokens, leaves the name
unchanged. -/
theorem c2_counterexample :
    renameFile reactSubs (ofString "component_name.css") =
      ofString "component_name.css" ∧
    applyRules (expandAll reactSubs) (ofString "component_name.css") =
      ofString "mybutton.css" ∧
    ofString "component_name.css" ≠ ofString "mybutton.css" :=
  ⟨rfl, rfl, by decide⟩

/-- Claim C2, amended.  For file contents the claim holds: each spec
entry expands into three substitution rules applied in the order exact
token, kebab-case of the token, lower-snake of the token, with entries
in declaration order.  File names instead receive only the exact token
rule of each entry, each computed from the original file name, so when
several entries match the last matching entry determines the final
name. -/
theorem c2_amended :
    (∀ (subs : List (Str × Str)) (s : Str),
      rewriteContent subs s = applyRules (expandAll subs) s) ∧
    (∀ (subs : List (Str × Str)) (fn : Str),
      renameFile subs fn =
        (match lastMatch fn subs with
         | some pv => replaceAll pv.1 pv.2 fn
         | none => fn)) :=
  ⟨rewriteContent_eq_applyRules,
   fun subs fn => renameFile_lastMatch subs fn fn⟩

/-! ## Claim C9 -/

/-- Claim C9.  The `list` command always exits 0; on an empty catalog it
reports that no templates were found; on a catalog whose child
directories are exactly `basic`, `react-component`, `python-service`
(in any order) it reports exactly those three names, lexicographically
sorted. -/
theorem c9_list_sorted :
    ∀ ds : List Str,
    ds.Perm [ofString "basic", ofString "python-service",
      ofString "react-component"] →
    (∀ c, (listCommand c).2 = 0) ∧
    listCommand (Catalog.available []) = ([Line.noTemplates], 0) ∧
    (listCommand (Catalog.available ds)).1 =
      [Line.availableHeader,
       Line.templateName (ofString "basic"),
       Line.templateName (ofString "python-service"),
       Line.templateName (ofString "react-component")] := by
  intro ds hperm
  refine ⟨fun c => rfl, rfl, ?_⟩
  have hsort : sortStrs ds =
      [ofString "basic", ofString "python-service",
       ofString "react-component"] := by
    apply List.eq_of_perm_of_sorted (r := strLe)
    · exact (List.perm_insertionSort strLe ds).trans hperm
    · exact List.sorted_insertionSort strLe ds
    · simp only [List.sorted_cons, List.mem_cons, List.mem_singleton,
        List.not_mem_nil]
      refine ⟨?_, ?_, ?_⟩
      · intro b hb
        rcases hb with hb | hb | hb
        · subst hb; decide
        · subst hb; decide
        · exact absurd hb (by simp)
      · intro b hb
        rcases hb with hb | hb
        · subst hb; decide
        · exact absurd hb (by simp)
      · simp [List.Sorted]
  have hne : ds.isEmpty = false := by
    have hlen := hperm.length_eq
    cases ds with
    | nil => simp at hlen
    | cons a t => rfl
  simp only [listCommand, list_templates, hne, Bool.false_eq_true,
    if_false, hsort, List.map_cons, List.map_nil]

/-- Claim C9, witness: a concrete unsorted catalog listing. -/
theorem c9_witness :
    (listCommand (Catalog.available
      [ofString "react-component", ofString "basic",
       ofString "python-service"])).1 =
      [Line.availableHeader,
       Line.templateName (ofString "basic"),
       Line.templateName (ofString "python-service"),
       Line.templateName (ofString "react-component")] :=
  (c9_list_sorted _ (by decide)).2.2

/-! ## Claim C10 -/

mutual
theorem rewriteEntry_dirNames (subs : List (Str × Str)) :
    ∀ (e e2 : Entry) (ns : List Notice),
    rewriteEntry subs e = .ok (e2, ns) → dirNamesE e2 = dirNamesE e := by
  intro e
  cases e with
  | file f =>
    intro e2 ns h
    simp only [rewriteEntry] at h
    cases hp : processFile subs f with
    | error n => rw [hp] at h; exact absurd h (by simp)
    | ok p =>
      rw [hp] at h
      simp only [Except.ok.injEq, Prod.mk.injEq] at h
      obtain ⟨he, -⟩ := h
      subst he
      rfl
  | dir n cs =>
    intro e2 ns h
    simp only [rewriteEntry] at h
    cases hp : rewriteEntries subs cs with
    | error m => rw [hp] at h; exact absurd h (by simp)
    | ok p =>
      rw [hp] at h
      simp only [Except.ok.injEq, Prod.mk.injEq] at h
      obtain ⟨he, -⟩ := h
      subst he
      simp only [dirNamesE]
      rw [rewriteEntries_dirNames subs cs p.1 p.2 (by rw [hp])]

theorem rewriteEntries_dirNames (subs : List (Str × Str)) :
    ∀ (es es2 : List Entry) (ns : List Notice),
    rewriteEntries subs es = .ok (es2, ns) → dirNamesL es2 = dirNamesL es := by
  intro es
  cases es with
  | nil =>
    intro es2 ns h
    simp only [rewriteEntries, Except.ok.injEq, Prod.mk.injEq] at h
    obtain ⟨he, -⟩ := h
    subst he
    rfl
  | cons e es =>
    intro es2 ns h
    simp only [rewriteEntries] at h
    cases hp : rewriteEntry subs e with
    | error m => rw [hp] at h; exact absurd h (by simp)
    | ok p =>
      rw [hp] at h
      cases hq : rewriteEntries subs es with
      | error m => rw [hq] at h; exact absurd h (by simp)
      | ok q =>
        rw [hq] at h
        simp only [Except.ok.injEq, Prod.mk.injEq] at h
        obtain ⟨he, -⟩ := h
        subst he
        simp only [dirNamesL]
        rw [rewriteEntry_dirNames subs e p.1 p.2 (by rw [hp]),
          rewriteEntries_dirNames subs es q.1 q.2 (by rw [hq])]
end

/-- Claim C10.  The rewrite pass renames only regular files: every
directory in the destination tree keeps the name the copy stage gave it,
even when that name contains a placeholder token. -/
theorem c10_dirs_never_renamed :
    ∀ (subs : List (Str × Str)) (es es2 : List Entry) (ns : List Notice),
    rewriteEntries subs es = .ok (es2, ns) →
    dirNamesL es2 = dirNamesL es :=
  fun subs es es2 ns h => rewriteEntries_dirNames subs es es2 ns h

/-- Claim C10, witness: a directory literally named `COMPONENT_NAME`
keeps its name while the file inside it is renamed. -/
theorem c10_witness :
    dirNamesL placeholderDirTreeResult = dirNamesL placeholderDirTree :=
  c10_dirs_never_renamed reactSubs placeholderDirTree
    placeholderDirTreeResult [] rfl

/-! ## Claim C3 -/

mutual
theorem rewriteEntry_ok (subs : List (Str × Str)) :
    ∀ e : Entry, (∀ f ∈ filesOfE e, f.renameFails = false) →
    ∃ e2 ns, rewriteEntry subs e = .ok (e2, ns) ∧
      ∀ f ∈ filesOfE e, f.writeFails = true →
        (∃ s, f.data = FileData.text s) →
        Notice.errorProcessing (renameFile subs f.name) ∈ ns := by
  intro e
  cases e with
  | file f =>
    intro hrn
    obtain ⟨name, data, rf, wf⟩ := f
    have hf : rf = false := hrn ⟨name, data, rf, wf⟩ (by simp [filesOfE])
    subst hf
    cases data with
    | binary bs =>
      refine ⟨.file ⟨renameFile subs name, .binary bs, false, wf⟩,
        [.skippedBinary (renameFile subs name)], ?_, ?_⟩
      · simp [rewriteEntry, processFile]
      · intro g hg hw ht
        simp only [filesOfE, List.mem_singleton] at hg
        subst hg
        obtain ⟨s, hs⟩ := ht
        exact absurd hs (by simp)
    | text s =>
      cases wf with
      | true =>
        refine ⟨.file ⟨renameFile subs name, .text s, false, true⟩,
          [.errorProcessing (renameFile subs name)], ?_, ?_⟩
        · simp [rewriteEntry, processFile]
        · intro g hg hw ht
          simp only [filesOfE, List.mem_singleton] at hg
          subst hg
          simp
      | false =>
        refine ⟨.file ⟨renameFile subs name, .text (rewriteContent subs s),
          false, false⟩, [], ?_, ?_⟩
        · simp [rewriteEntry, processFile]
        · intro g hg hw ht
          simp only [filesOfE, List.mem_singleton] at hg
          subst hg
          exact absurd hw (by simp)
  | dir n cs =>
    intro hrn
    obtain ⟨cs2, ns, hcs, hns⟩ :=
      rewriteEntries_ok subs cs (by simpa [filesOfE] using hrn)
    exact ⟨.dir n cs2, ns, by simp [rewriteEntry, hcs],
      by simpa [filesOfE] using hns⟩

theorem rewriteEntries_ok (subs : List (Str × Str)) :
    ∀ es : List Entry, (∀ f ∈ filesOfL es, f.renameFails = false) →
    ∃ es2 ns, rewriteEntries subs es = .ok (es2, ns) ∧
      ∀ f ∈ filesOfL es, f.writeFails = true →
        (∃ s, f.data = FileData.text s) →
        Notice.errorProcessing (renameFile subs f.name) ∈ ns := by
  intro es
  cases es with
  | nil =>
    intro _
    exact ⟨[], [], rfl, by simp [filesOfL]⟩
  | cons e es =>
    intro hrn
    have h1 : ∀ f ∈ filesOfE e, f.renameFails = false := fun f hf =>
      hrn f (by simp [filesOfL, List.mem_append, hf])
    have h2 : ∀ f ∈ filesOfL es, f.renameFails = false := fun f hf =>
      hrn f (by simp [filesOfL, List.mem_append, hf])
    obtain ⟨e2, ns, he, hns⟩ := rewriteEntry_ok subs e h1
    obtain ⟨es2, ns2, hes, hns2⟩ := rewriteEntries_ok subs es h2
    refine ⟨e2 :: es2, ns ++ ns2, ?_, ?_⟩
    · simp only [rewriteEntries, he, hes]
    · intro f hf hw ht
      simp only [filesOfL, List.mem_append] at hf
      rcases hf with hf | hf
      · exact List.mem_append.mpr (Or.inl (hns f hf hw ht))
      · exact List.mem_append.mpr (Or.inr (hns2 f hf hw ht))
end

/-- Claim C3, counterexample.  A failure while renaming a file is not
caught: `os.rename` sits outside the `try` block, so the walk aborts
(the following file is never visited) and the command dies with an
uncaught exception and exit code 1 even though the copy stage
succeeded. -/
theorem c3_counterexample :
    rewriteEntries reactSubs
      [Entry.file ⟨ofString "COMPONENT_NAME.tsx",
        .text (ofString "COMPONENT_NAME"), true, false⟩,
       Entry.file ⟨ofString "other.txt", .text (ofString "hello"),
        false, false⟩] = .error (ofString "COMPONENT_NAME.tsx") ∧
    (create renameFailCatalog ⟨none⟩ (ofString "react-component")
      (ofString "MyButton") (ofString "2025") false).2 =
      CreateResult.crashed (ofString "COMPONENT_NAME.tsx") ∧
    exitCode (CreateResult.crashed (ofString "COMPONENT_NAME.tsx")) = 1 :=
  ⟨rfl, rfl, rfl⟩

/-- Claim C3, amended.  A failure while rewriting a file's content is
logged and non-fatal: when no rename fails, the walk always completes,
every failing text file contributes its `Error processing file` notice,
and the `create` command still reports success (exit 0) provided the
copy stage succeeded.  (A failure while renaming, by contrast, aborts
the command — see the counterexample.) -/
theorem c3_amended :
    (∀ (subs : List (Str × Str)) (es : List Entry),
      (∀ f ∈ filesOfL es, f.renameFails = false) →
      ∃ es2 ns, rewriteEntries subs es = .ok (es2, ns) ∧
        ∀ f ∈ filesOfL es, f.writeFails = true →
          (∃ s, f.data = FileData.text s) →
          Notice.errorProcessing (renameFile subs f.name) ∈ ns) ∧
    (∀ (catalog : List (Str × List Entry)) (tn nin y : Str)
      (tmpl : List Entry),
      lookupTemplate tn catalog = some tmpl →
      (∀ f ∈ filesOfL tmpl, f.renameFails = false) →
      ∃ es2 ns, create catalog ⟨none⟩ tn nin y false =
        (⟨some es2⟩, CreateResult.success ns) ∧
        exitCode (CreateResult.success ns) = 0) := by
  constructor
  · exact fun subs es h => rewriteEntries_ok subs es h
  · intro catalog tn nin y tmpl hlook hrn
    obtain ⟨es2, ns, hok, -⟩ :=
      rewriteEntries_ok (placeholders tn nin y) tmpl hrn
    refine ⟨es2, ns, ?_, rfl⟩
    simp only [create, hlook, Option.isSome_none, Bool.false_eq_true,
      if_false, hok]

/-- Claim C3, witness: a template whose first file's content write
fails still instantiates successfully, with the walk reaching the
second file. -/
theorem c3_witness :
    ∃ es2 ns, create writeFailCatalog ⟨none⟩ (ofString "react-component")
        (ofString "MyButton") (ofString "2025") false =
      (⟨some es2⟩, CreateResult.success ns) ∧
      exitCode (CreateResult.success ns) = 0 :=
  c3_amended.2 writeFailCatalog (ofString "react-component")
    (ofString "MyButton") (ofString "2025")
    [Entry.file ⟨ofString "COMPONENT_NAME.tsx",
      .text (ofString "COMPONENT_NAME"), false, true⟩,
     Entry.file ⟨ofString "other.txt", .text (ofString "hi"),
      false, false⟩]
    rfl (by decide)

/-! ## Claim C7 -/

theorem sub1Go_id_of_noUpper :
    ∀ (fuel : Nat) (s : Str), (∀ c ∈ s, isUpper c = false) →
    sub1Go fuel s = s := by
  intro fuel
  induction fuel with
  | zero => intro s _; rfl
  | succ a ih =>
    intro s h
    match s with
    | [] => rfl
    | [c] => rfl
    | [c, u] => rfl
    | c :: u :: l :: rest =>
      have hu : isUpper u = false := h u (by simp)
      simp only [sub1Go, hu, Bool.and_false, Bool.false_and,
        Bool.false_eq_true, if_false, List.cons.injEq, true_and]
      exact ih (u :: l :: rest) fun d hd => h d (by simp [List.mem_cons] at hd ⊢; tauto)

theorem sub2_id_of_noUpper :
    ∀ (n : Nat) (s : Str), s.length ≤ n → (∀ c ∈ s, isUpper c = false) →
    sub2 s = s := by
  intro n
  induction n with
  | zero =>
    intro s hl _
    have hs : s = [] := List.length_eq_zero.mp (Nat.le_zero.mp hl)
    subst hs; rfl
  | succ m ih =>
    intro s hl h
    match s with
    | [] => rfl
    | [c] => rfl
    | c :: u :: rest =>
      have hu : isUpper u = false := h u (by simp)
      simp only [sub2, hu, Bool.and_false, Bool.false_eq_true, if_false,
        List.cons.injEq, true_and]
      refine ih (u :: rest) (by simp at hl ⊢; omega) fun d hd => h d ?_
      simp [List.mem_cons] at hd ⊢
      tauto

theorem map_toLowerChar_id :
    ∀ s : Str, (∀ c ∈ s, isUpper c = false) → s.map toLowerChar = s := by
  intro s h
  induction s with
  | nil => rfl
  | cons c cs ih =>
    simp only [List.map_cons, List.cons.injEq]
    exact ⟨toLowerChar_of_not_upper (h c (by simp)),
      ih fun d hd => h d (by simp [hd])⟩

theorem noUpper_kebab (s : Str) : ∀ c ∈ kebab_case s, isUpper c = false := by
  intro c hc
  simp only [kebab_case, List.mem_map] at hc
  obtain ⟨d, -, rfl⟩ := hc
  exact isUpper_toLowerChar d

theorem lower_snake_cons (c : Nat) (cs : Str) :
    lower_snake (c :: cs) =
      (if toLowerChar c = 45 then 95 else toLowerChar c) :: lower_snake cs :=
  rfl

theorem snake_char_fixed (c : Nat) :
    (if toLowerChar (if toLowerChar c = 45 then 95 else toLowerChar c) = 45
      then 95
      else toLowerChar (if toLowerChar c = 45 then 95 else toLowerChar c)) =
    (if toLowerChar c = 45 then 95 else toLowerChar c) := by
  have hnu : isUpper (toLowerChar c) = false := isUpper_toLowerChar c
  by_cases h45 : toLowerChar c = 45
  · simp only [h45, if_true]
    have : toLowerChar 95 = 95 := by decide
    simp [this]
  · simp only [h45, if_false]
    rw [toLowerChar_of_not_upper hnu]
    simp [h45]

/-- Claim C7.  `toKebab` is idempotent on every string, `toSnake`
(`lower().replace('-','_')`) is idempotent on every string, and
`toCapitalizedConcat("my-button") = "MyButton"`. -/
theorem c7_casing_idempotent :
    (∀ s, kebab_case (kebab_case s) = kebab_case s) ∧
    (∀ s, lower_snake (lower_snake s) = lower_snake s) ∧
    pascal_case (ofString "my-button") = ofString "MyButton" := by
  refine ⟨?_, ?_, rfl⟩
  · intro s
    have h := noUpper_kebab s
    show (sub2 (sub1 (kebab_case s))).map toLowerChar = kebab_case s
    rw [show sub1 (kebab_case s) = kebab_case s from
      sub1Go_id_of_noUpper _ _ h]
    rw [sub2_id_of_noUpper (kebab_case s).length _ (Nat.le_refl _) h]
    exact map_toLowerChar_id _ h
  · intro s
    induction s with
    | nil => rfl
    | cons c cs ih =>
      rw [lower_snake_cons, lower_snake_cons, snake_char_fixed, ih]

/-! ## Claim C8 -/

theorem sub2_cons_of_first {c : Nat} (s : Str)
    (h : (isLower c || isDigit c) = false) : sub2 (c :: s) = c :: sub2 s := by
  cases s with
  | nil => rfl
  | cons d t => simp only [sub2, h, Bool.false_and, Bool.false_eq_true, if_false]

theorem sub2_cons_of_next {c d : Nat} (s : Str) (h : isUpper d = false) :
    sub2 (c :: d :: s) = c :: sub2 (d :: s) := by
  simp only [sub2, h, Bool.and_false, Bool.false_eq_true, if_false]

theorem specPassB_cons_of_first {c : Nat} (s : Str)
    (h : (isLower c || isDigit c) = false) :
    specPassB (c :: s) = c :: specPassB s := by
  cases s with
  | nil => rfl
  | cons d t =>
    simp only [specPassB, h, Bool.false_and, Bool.false_eq_true, if_false]

theorem specPassB_cons_of_next {c d : Nat} (s : Str) (h : isUpper d = false) :
    specPassB (c :: d :: s) = c :: specPassB (d :: s) := by
  simp only [specPassB, h, Bool.and_false, Bool.false_eq_true, if_false]

theorem specPassANoNl_head (c : Nat) (s : Str) :
    ∃ t, specPassANoNl (c :: s) = c :: t := by
  cases s with
  | nil => exact ⟨[], rfl⟩
  | cons d r =>
    simp only [specPassANoNl]
    split
    · exact ⟨_, rfl⟩
    · exact ⟨_, rfl⟩

theorem specPassANoNl_cons_noDash {c d : Nat} (rest : Str)
    (h : ((c != 10) && isUpper d && headIsLower rest) = false) :
    specPassANoNl (c :: d :: rest) = c :: specPassANoNl (d :: rest) := by
  simp only [specPassANoNl, h, Bool.false_eq_true, if_false]

theorem specPassANoNl_cons_dash {c d : Nat} (rest : Str)
    (h : ((c != 10) && isUpper d && headIsLower rest) = true) :
    specPassANoNl (c :: d :: rest) = c :: 45 :: specPassANoNl (d :: rest) := by
  simp only [specPassANoNl, h, if_true]

theorem kebab_run :
    ∀ (T R : Str), (∀ c ∈ T, isLower c = true) → headIsLower R = false →
    sub2 (sub1 R) = specPassB (specPassANoNl R) →
    sub2 (T ++ sub1 R) = specPassB (specPassANoNl (T ++ R)) := by
  intro T
  induction T with
  | nil => intro R _ _ hIH; simpa using hIH
  | cons t T2 ih =>
    intro R hT hR hIH
    have ht : isLower t = true := hT t (by simp)
    cases T2 with
    | cons t2 T3 =>
      have ht2 : isLower t2 = true := hT t2 (by simp)
      have ht2u : isUpper t2 = false := isLower_not_upper ht2
      simp only [List.cons_append]
      rw [sub2_cons_of_next _ ht2u]
      rw [specPassANoNl_cons_noDash _ (by simp [ht2u])]
      obtain ⟨W, hW⟩ := specPassANoNl_head t2 (T3 ++ R)
      rw [hW, specPassB_cons_of_next _ ht2u, ← hW]
      congr 1
      have hrec := ih R
        (fun c hc => hT c (by simp [List.mem_cons] at hc ⊢; tauto)) hR hIH
      simpa [List.cons_append] using hrec
    | nil =>
      simp only [List.singleton_append]
      cases R with
      | nil => rfl
      | cons r R2 =>
        have hrl : isLower r = false := by simpa [headIsLower] using hR
        obtain ⟨X, hX⟩ := sub1_cons_head r R2
        obtain ⟨Y, hY⟩ := specPassANoNl_head r R2
        by_cases hup : isUpper r = true
        · have hrld : (isLower r || isDigit r) = false :=
            isUpper_not_lowerdigit hup
          have hXY : sub2 X = specPassB Y := by
            have h2 := hIH
            rw [hX, sub2_cons_of_first _ hrld, hY,
              specPassB_cons_of_first _ hrld] at h2
            exact ((List.cons.injEq _ _ _ _).mp h2).2
          have hcond : ((isLower t || isDigit t) && isUpper r) = true := by
            simp [ht, hup]
          rw [hX]
          simp only [sub2, hcond, if_true]
          by_cases hR2 : headIsLower R2 = true
          · rw [specPassANoNl_cons_dash _
              (by simp [isLower_bne10 ht, hup, hR2])]
            rw [specPassB_cons_of_next _ (by decide)]
            rw [specPassB_cons_of_first _ (by decide)]
            rw [hY, specPassB_cons_of_first _ hrld, hXY]
          · have hR2f : headIsLower R2 = false := by simpa using hR2
            rw [specPassANoNl_cons_noDash _ (by simp [hR2f])]
            rw [hY]
            simp only [specPassB, hcond, if_true]
            rw [specPassB_cons_of_first _ hrld, hXY]
        · have hupf : isUpper r = false := by simpa using hup
          rw [hX, sub2_cons_of_next _ hupf, ← hX, hIH]
          rw [specPassANoNl_cons_noDash _ (by simp [hupf])]
          rw [hY, specPassB_cons_of_next _ hupf, ← hY]

theorem kebab_core :
    ∀ (n : Nat) (s : Str), s.length ≤ n →
    sub2 (sub1 s) = specPassB (specPassANoNl s) := by
  intro n
  induction n with
  | zero =>
    intro s h
    have hs : s = [] := List.length_eq_zero.mp (Nat.le_zero.mp h)
    subst hs; rfl
  | succ m ih =>
    intro s h
    cases s with
    | nil => rfl
    | cons c s1 =>
      cases s1 with
      | nil => rfl
      | cons u s2 =>
        cases s2 with
        | nil =>
          show sub2 [c, u] = specPassB (specPassANoNl [c, u])
          have hA : specPassANoNl [c, u] = [c, u] := by
            rw [specPassANoNl_cons_noDash _ (by simp [headIsLower])]
            rfl
          rw [hA]
          simp [sub2, specPassB]
        | cons l rest =>
          rw [sub1_cons3]
          have hd := dropWhile_length_le isLower (l :: rest)
          simp only [List.length_cons] at hd h
          by_cases hm : ((c != 10) && isUpper u && isLower l) = true
          · rw [if_pos hm]
            have hu : isUpper u = true := by
              have h3 := hm
              simp only [Bool.and_eq_true] at h3
              exact h3.1.2
            have hl : isLower l = true := by
              have h3 := hm
              simp only [Bool.and_eq_true] at h3
              exact h3.2
            have hlu : isUpper l = false := isLower_not_upper hl
            rw [sub2_cons_of_next _ (by decide)]
            rw [sub2_cons_of_first _ (by decide)]
            have hT : (l :: rest).takeWhile isLower =
                l :: rest.takeWhile isLower := by
              simp [List.takeWhile_cons, hl]
            rw [hT, List.cons_append]
            rw [sub2_cons_of_next _ hlu]
            rw [← List.cons_append, ← hT]
            have hrun := kebab_run ((l :: rest).takeWhile isLower)
              ((l :: rest).dropWhile isLower)
              (fun d hdm => mem_takeWhile_lower hdm)
              (headIsLower_dropWhile _)
              (ih _ (by omega))
            rw [List.takeWhile_append_dropWhile] at hrun
            rw [hrun]
            have hcondD : ((c != 10) && isUpper u
                && headIsLower (l :: rest)) = true := by
              simpa [headIsLower] using hm
            rw [specPassANoNl_cons_dash _ hcondD]
            rw [specPassB_cons_of_next _ (by decide)]
            rw [specPassB_cons_of_first _ (by decide)]
            have hcondU : ((u != 10) && isUpper l
                && headIsLower rest) = false := by
              simp [hlu]
            rw [specPassANoNl_cons_noDash _ hcondU]
            obtain ⟨W, hW⟩ := specPassANoNl_head l rest
            rw [hW, specPassB_cons_of_next _ hlu, ← hW]
          · rw [if_neg (by simpa using hm)]
            have hm2 : ((c != 10) && isUpper u && isLower l) = false := by
              simpa using hm
            obtain ⟨X, hX⟩ := sub1_cons_head u (l :: rest)
            obtain ⟨V, hV⟩ := specPassANoNl_head u (l :: rest)
            have hIH := ih (u :: l :: rest)
              (by simp only [List.length_cons]; omega)
            by_cases hb : ((isLower c || isDigit c) && isUpper u) = true
            · have hu : isUpper u = true := by
                simp only [Bool.and_eq_true] at hb
                exact hb.2
              have hul : (isLower u || isDigit u) = false :=
                isUpper_not_lowerdigit hu
              have hXV : sub2 X = specPassB V := by
                have h2 := hIH
                rw [hX, sub2_cons_of_first _ hul, hV,
                  specPassB_cons_of_first _ hul] at h2
                exact ((List.cons.injEq _ _ _ _).mp h2).2
              rw [hX]
              simp only [sub2, hb, if_true]
              have hcondA : ((c != 10) && isUpper u
                  && headIsLower (l :: rest)) = false := by
                simpa [headIsLower] using hm2
              rw [specPassANoNl_cons_noDash _ hcondA]
              rw [hV]
              simp only [specPassB, hb, if_true]
              rw [specPassB_cons_of_first _ hul, hXV]
            · have hb2 : ((isLower c || isDigit c) && isUpper u) = false := by
                simpa using hb
              rw [hX]
              simp only [sub2, hb2, Bool.false_eq_true, if_false]
              rw [← hX, hIH]
              have hcondA : ((c != 10) && isUpper u
                  && headIsLower (l :: rest)) = false := by
                simpa [headIsLower] using hm2
              rw [specPassANoNl_cons_noDash _ hcondA]
              rw [hV]
              simp only [specPassB, hb2, Bool.false_eq_true, if_false]

/-- Claim C8, counterexample.  The spec says a `-` is inserted between
ANY character and a following uppercase-then-lowercase run, but regex
`.` does not match a newline: on `"a\nBc"` the code yields `"a\nbc"`
while the described transform yields `"a\n-bc"`. -/
theorem c8_counterexample :
    kebab_case (ofString "a\nBc") = ofString "a\nbc" ∧
    specKebab (ofString "a\nBc") = ofString "a\n-bc" ∧
    ofString "a\nbc" ≠ ofString "a\n-bc" :=
  ⟨rfl, rfl, by decide⟩

/-- Claim C8, amended.  `kebab_case` inserts a `-` between any character
OTHER THAN A NEWLINE and a following run of an uppercase letter then a
lowercase letter, and between any lowercase-or-digit character and a
following uppercase letter, then lowercases the result — proved as an
equivalence with the boundary-rule description, for every input; in
particular `MyComponent ↦ my-component` and `XMLParser ↦ xml-parser`. -/
theorem c8_kebab_spec :
    (∀ s, kebab_case s = specKebabNoNl s) ∧
    kebab_case (ofString "MyComponent") = ofString "my-component" ∧
    kebab_case (ofString "XMLParser") = ofString "xml-parser" := by
  refine ⟨?_, rfl, rfl⟩
  intro s
  show (sub2 (sub1 s)).map toLowerChar = _
  rw [kebab_core s.length s (Nat.le_refl _)]
  rfl
